import Mathlib

/-!
Shallow embedding of the PDF_Search repository (Next.js PDF viewer with
AI chat) and proofs about its specification claims.

Embedded source files:
* `src/pdf-viewer/src/components/GeminiChat.tsx` — chat session state
  (`handleSend`, `handleManualSend`, `handleClear`, persistence effects)
* `src/pdf-viewer/src/lib/gemini.ts` — `streamFromGemini` request building
  and chunk delivery
* `src/pdf-viewer/src/components/PDFViewer.tsx` — region capture
  (`handleMouseUp`), text-selection classification (`handleTextSelection`),
  annotation creation and persistence
* `src/pdf-viewer/src/lib/db.ts` — JSON-file PDF registry (`pdfOps.getAll`)
-/

/-! ## Chat data model (GeminiChat.tsx, `interface Message`) -/

/-- The `role` field of a chat `Message`: `"user" | "assistant"`. -/
inductive Role where
  | user
  | assistant
deriving DecidableEq

/-- `interface Message` from GeminiChat.tsx.  In TypeScript `isStreaming?` is
an optional boolean; a missing field is falsy, so it is modelled as `Bool`
with `false` for absent. -/
structure Message where
  role : Role
  content : String
  imageData : Option String
  isStreaming : Bool
deriving DecidableEq

/-- `messages.filter(m => !m.isStreaming)` — the committed history snapshot
taken at GeminiChat.tsx line 80 and by the save effect at line 57. -/
def commitFilter (l : List Message) : List Message :=
  l.filter (fun m => !m.isStreaming)

/-! ## Request building (gemini.ts, `streamFromGemini` lines 32–63) -/

/-- A request message's `content`: either a plain string or the two-part
`[{type:"text"},{type:"image_url"}]` block. -/
inductive ReqContent where
  | plain (text : String)
  | withImage (text : String) (imageUrl : String)
deriving DecidableEq

/-- One element of the `messages` array sent to the completion endpoint. -/
structure ReqMessage where
  role : String
  content : ReqContent
deriving DecidableEq

/-- `msg.role` serialized as the JSON string. -/
def roleString : Role → String
  | .user => "user"
  | .assistant => "assistant"

/-- Encoding of one history entry (gemini.ts lines 38–50): image-bearing
messages become two-part content, others plain text. -/
def encodeHistoryMessage (m : Message) : ReqMessage :=
  match m.imageData with
  | some img => ⟨roleString m.role, .withImage m.content ("data:image/png;base64," ++ img)⟩
  | none => ⟨roleString m.role, .plain m.content⟩

/-- Encoding of the current turn (gemini.ts lines 52–63), always role
`"user"`. -/
def encodeCurrent (prompt : String) (imageBase64 : Option String) : ReqMessage :=
  match imageBase64 with
  | some img => ⟨"user", .withImage prompt ("data:image/png;base64," ++ img)⟩
  | none => ⟨"user", .plain prompt⟩

/-- The `messages` array of the request body (gemini.ts lines 34–63):
`chatHistory.slice(-10)` (the most recent 10 entries, or all of them when
fewer) encoded in order, followed by the current turn.  JavaScript
`slice(-10)` on a length-`n` array keeps indices from `max(n-10,0)`, which
is `List.drop (n - 10)` with truncated subtraction. -/
def buildMessages (prompt : String) (imageBase64 : Option String)
    (chatHistory : List Message) : List ReqMessage :=
  (chatHistory.drop (chatHistory.length - 10)).map encodeHistoryMessage
    ++ [encodeCurrent prompt imageBase64]

/-! ## Stream outcomes (gemini.ts lines 25–120)

`streamFromGemini` resolves without throwing on every path: failures are
reported by invoking `onChunk` with an error string.  `StreamOutcome`
enumerates the observable transport behaviours; `streamChunks` gives the
exact sequence of strings delivered to `onChunk` on each. -/

inductive StreamOutcome where
  | noApiKey
  | httpError (status : Nat) (body : String)
  | noReader
  | ok (chunks : List String)
  | midStreamFailure (chunks : List String) (errMsg : String)

/-- The strings passed to `onChunk`, per branch of `streamFromGemini`:
missing key (line 28), non-ok response (line 83), missing body reader
(line 91), normal delta texts (line 110), and the catch block that
appends `"\nError: " + message` after whatever chunks already arrived
(line 119). -/
def streamChunks : StreamOutcome → List String
  | .noApiKey =>
      ["Error: Please set NEXT_PUBLIC_OPENROUTER_API_KEY in .env.local\n\nGet key at: https://openrouter.ai/keys"]
  | .httpError status body => ["Error: " ++ toString status ++ " - " ++ body]
  | .noReader => ["Error: No response stream"]
  | .ok chunks => chunks
  | .midStreamFailure chunks errMsg => chunks ++ ["\nError: " ++ errMsg]

/-! ## handleSend (GeminiChat.tsx lines 71–121) -/

/-- `updated[updated.length - 1] = f(last)` on a copied array: replaces the
last element when the list is nonempty and leaves the empty list empty
(assigning index `-1` does not add an element to a JavaScript array). -/
def updateLast (f : Message → Message) (l : List Message) : List Message :=
  l.dropLast ++ (l.getLast?.map f).toList

/-- The User message appended at lines 74–78: content falls back to
`"Analyze this image"` when the text is empty (falsy). -/
def mkUserMessage (text : String) (img : Option String) : Message :=
  ⟨.user, if text = "" then "Analyze this image" else text, img, false⟩

/-- The prompt argument passed to `streamFromGemini` at line 92; note the
fallback string here ends with a period, unlike the User message content. -/
def promptOf (text : String) : String :=
  if text = "" then "Analyze this image." else text

/-- The placeholder Assistant message appended at line 86. -/
def placeholderMessage : Message :=
  ⟨.assistant, "", none, true⟩

/-- The per-chunk callback (lines 94–101): `fullResponse += chunk` then the
last message's `content` is set to the accumulator.  `acc` is the value of
`fullResponse` before the next chunk. -/
def applyChunks : List Message → String → List String → List Message
  | l, _, [] => l
  | l, acc, c :: cs =>
      applyChunks (updateLast (fun m => { m with content := acc ++ c }) l) (acc ++ c) cs

/-- Stream-end step (lines 104–108): clear `isStreaming` on the last
message. -/
def finalize (l : List Message) : List Message :=
  updateLast (fun m => { m with isStreaming := false }) l

/-- The catch branch (lines 110–118): replace the last message wholesale
with an error Assistant message. -/
def errorReplace (emsg : String) (l : List Message) : List Message :=
  updateLast (fun _ => ⟨.assistant, emsg, none, false⟩) l

/-- Whether the `await streamFromGemini(...)` expression completed or threw
(the thrown-message case drives the catch branch). -/
inductive SendResult where
  | completed
  | threw (errMsg : String)

/-- End state of `handleSend` given the chunk sequence `chunks` delivered by
the stream and the completion result: guard (line 72), user message and
placeholder appends (lines 81, 87), chunk applications, then either the
finalize step or the catch branch with content
`"Error: " + (error.message ?? "Failed")`. -/
def sendFinalState (l : List Message) (text : String) (img : Option String)
    (chunks : List String) (res : SendResult) : List Message :=
  if text = "" ∧ img = none then l
  else
    match res with
    | .completed =>
        finalize (applyChunks (l ++ [mkUserMessage text img, placeholderMessage]) "" chunks)
    | .threw emsg =>
        errorReplace ("Error: " ++ emsg)
          (applyChunks (l ++ [mkUserMessage text img, placeholderMessage]) "" chunks)

/-- The full `handleSend` message-list effect: since `streamFromGemini`
never rejects, the chunk sequence comes from the transport outcome and the
await always completes. -/
def handleSendMessages (l : List Message) (text : String) (img : Option String)
    (outcome : StreamOutcome) : List Message :=
  sendFinalState l text img (streamChunks outcome) .completed

/-- The request transmitted to the completion endpoint by one `handleSend`:
`none` when the guard returns early or when the API key is missing (no
`fetch` happens), otherwise the `buildMessages` payload over the committed
history snapshot. -/
def handleSendRequest (l : List Message) (text : String) (img : Option String)
    (outcome : StreamOutcome) : Option (List ReqMessage) :=
  if text = "" ∧ img = none then none
  else
    match outcome with
    | .noApiKey => none
    | _ => some (buildMessages (promptOf text) img (commitFilter l))

/-! ## JavaScript whitespace and trim (used by handleManualSend and
handleTextSelection) -/

/-- The common JavaScript `\s` / `String.prototype.trim` whitespace
characters (space, tab, LF, VT, FF, CR, NBSP). -/
def isJsSpace (c : Char) : Bool :=
  c == ' ' || c == '\t' || c == '\n' || c == '\x0b' || c == '\x0c' || c == '\r' || c == ' '

/-- `String.prototype.trim`: strip whitespace from both ends. -/
def jsTrim (s : String) : String :=
  ⟨((s.data.dropWhile isJsSpace).reverse.dropWhile isJsSpace).reverse⟩

/-- `handleManualSend` (GeminiChat.tsx lines 134–137): returns the argument
pair passed to `handleSend`, or `none` when no call is made (trimmed text
empty and no pending image). -/
def handleManualSendArgs (input : String) (pendingImage : Option String) :
    Option (String × Option String) :=
  if !(jsTrim input == "") || pendingImage.isSome then
    some (if jsTrim input = "" then "Analyze this image" else jsTrim input, pendingImage)
  else none

/-! ## Reachable chat states (for the streaming invariant)

`handleSend` exposes intermediate states through `setMessages`: after the
User append (line 81), after the placeholder append (line 87), after each
chunk (lines 96–100), and the final state (lines 104–108 or the catch
branch).  The UI serializes sends (`isLoading` disables the Send button),
so operations — initial `load`, `handleSend` runs, `handleClear` — occur
in sequence. -/

/-- Every intermediate message-list state produced by the per-chunk
callback, in order. -/
def chunkStates : List Message → String → List String → List (List Message)
  | _, _, [] => []
  | l, acc, c :: cs =>
      (updateLast (fun m => { m with content := acc ++ c }) l)
        :: chunkStates (updateLast (fun m => { m with content := acc ++ c }) l) (acc ++ c) cs

/-- Every message-list state visible during one `handleSend` call (just
the prior state when the empty-input guard fires). -/
def sendStates (l : List Message) (text : String) (img : Option String)
    (chunks : List String) (res : SendResult) : List (List Message) :=
  if text = "" ∧ img = none then [l]
  else
    (l ++ [mkUserMessage text img])
      :: (l ++ [mkUserMessage text img, placeholderMessage])
      :: (chunkStates (l ++ [mkUserMessage text img, placeholderMessage]) "" chunks
            ++ [sendFinalState l text img chunks res])

/-- Operation-boundary states of the chat session: the initial empty list,
the result of loading a persisted snapshot (the save effect at line 57
only ever stores `filter(!isStreaming)` snapshots), `handleClear`
(lines 139–143), and the final state of a completed `handleSend`. -/
inductive Boundary : List Message → Prop
  | init : Boundary []
  | loadSaved (l prior : List Message) : Boundary l → Boundary (commitFilter prior)
  | clearAll (l : List Message) : Boundary l → Boundary []
  | sendDone (l : List Message) (text : String) (img : Option String)
      (chunks : List String) (res : SendResult) :
      Boundary l → Boundary (sendFinalState l text img chunks res)

/-- A message-list state reachable by any sequence of load, send
(including its per-chunk updates) and clear operations. -/
def ReachableMsgs (s : List Message) : Prop :=
  Boundary s
    ∨ ∃ l text img chunks res, Boundary l ∧ s ∈ sendStates l text img chunks res

/-! ## Region capture (PDFViewer.tsx, `handleMouseUp` lines 193–232)

Pointer coordinates are JavaScript numbers; they are modelled as `ℚ`.
The model covers the capture path given a rendered page `canvas` with a
2D context (the code silently no-ops when either is missing). -/

/-- The `selectionRect` drag state (`startX/startY/endX/endY/pageNum`). -/
structure SelectionRect where
  startX : ℚ
  startY : ℚ
  endX : ℚ
  endY : ℚ
  pageNum : Nat
deriving DecidableEq

/-- An `{x, y, width, height}` rectangle. -/
structure Rect where
  x : ℚ
  y : ℚ
  width : ℚ
  height : ℚ
deriving DecidableEq

/-- Everything `handleMouseUp` computes for an accepted region capture:
the normalized viewport rectangle, the source pixel block passed to
`drawImage` (`x*scaleX, y*scaleY, width*scaleX, height*scaleY`), the
offscreen `tempCanvas` pixel dimensions (`tempCanvas.width = width`
truncates the number to an integer), and the emitted Selection fields. -/
structure CaptureResult where
  x : ℚ
  y : ℚ
  width : ℚ
  height : ℚ
  srcX : ℚ
  srcY : ℚ
  srcW : ℚ
  srcH : ℚ
  outW : ℤ
  outH : ℤ
  pageNumber : Nat
  content : String
deriving DecidableEq

/-- `handleMouseUp` lines 199–225: normalize the drag rectangle
(`x = min`, `width/height = abs` of the differences), reject unless
`width > 10 && height > 10`, otherwise extract the pixel block and emit a
region Selection. -/
def handleMouseUpCapture (r : SelectionRect) (scaleX scaleY : ℚ) :
    Option CaptureResult :=
  if 10 < |r.endX - r.startX| ∧ 10 < |r.endY - r.startY| then
    some
      { x := min r.startX r.endX
        y := min r.startY r.endY
        width := |r.endX - r.startX|
        height := |r.endY - r.startY|
        srcX := min r.startX r.endX * scaleX
        srcY := min r.startY r.endY * scaleY
        srcW := |r.endX - r.startX| * scaleX
        srcH := |r.endY - r.startY| * scaleY
        outW := ⌊|r.endX - r.startX|⌋
        outH := ⌊|r.endY - r.startY|⌋
        pageNumber := r.pageNum
        content := "Region from Page " ++ toString r.pageNum }
  else none

/-! ## Text-selection classifier (PDFViewer.tsx, `handleTextSelection`
lines 147–159)

The math heuristic is the regular expression
`/[∫∑∏√±×÷=<>≤≥≠∞αβγδπ]|[0-9]+[x²³]|[a-z]\s*[=+\-*\/^]\s*[a-z0-9]/i`
tested anywhere in the selected text. -/

/-- The fixed mathematical-symbol character class. -/
def mathSymbols : List Char :=
  ['∫', '∑', '∏', '√', '±', '×', '÷', '=', '<', '>', '≤', '≥', '≠', '∞',
   'α', 'β', 'γ', 'δ', 'π']

/-- The operator class `[=+\-*\/^]` of the third alternative. -/
def isOpChar (c : Char) : Bool :=
  c == '=' || c == '+' || c == '-' || c == '*' || c == '/' || c == '^'

/-- The exponent-marker class `[x²³]` under the `i` flag. -/
def expMarker (c : Char) : Bool :=
  c == 'x' || c == 'X' || c == '²' || c == '³'

/-- After an initial letter: `\s* [=+\-*\/^] \s* [a-z0-9]` (the `i` flag
makes the letter classes ASCII-case-insensitive). -/
def alt3Tail (cs : List Char) : Bool :=
  match cs.dropWhile isJsSpace with
  | op :: rest =>
      isOpChar op &&
        (match rest.dropWhile isJsSpace with
         | a :: _ => a.isAlphanum
         | [] => false)
  | [] => false

/-- Whether the regular expression matches at some position of the
character list: a math symbol anywhere, a digit immediately followed by an
exponent marker, or the single-letter-variable pattern. -/
def isMathAt : List Char → Bool
  | [] => false
  | c :: rest =>
      mathSymbols.contains c
        || (c.isDigit && (match rest with | d :: _ => expMarker d | [] => false))
        || (c.isAlpha && alt3Tail rest)
        || isMathAt rest

/-- The Selection `type` values of PDFViewer.tsx. -/
inductive SelKind where
  | text
  | image
  | equation
  | region
deriving DecidableEq

/-- The classifier at line 150: Equation when the heuristic matches, Text
otherwise — a pure function of the selected text. -/
def classify (s : String) : SelKind :=
  if isMathAt s.data then .equation else .text

/-- `interface Selection` from PDFViewer.tsx. -/
structure ViewerSelection where
  type : SelKind
  content : String
  pageNumber : Nat
  imageData : Option String
  rect : Option Rect
deriving DecidableEq

/-- `handleTextSelection` (lines 147–159): trim the platform selection
string; if it is empty no Selection is emitted, otherwise classify and
emit with `pageNumber = 1`. -/
def handleTextSelection (raw : String) : Option ViewerSelection :=
  if jsTrim raw ≠ "" then
    some ⟨classify (jsTrim raw), jsTrim raw, 1, none, none⟩
  else none

/-! ## Annotations (PDFViewer.tsx lines 23–31, 85–103, 235–250)

Persisted records are loose JSON: older shapes may lack `rect`, so the
persisted record's `rect` is an `Option`.  `addAnnotation` itself always
stores the selection's rectangle. -/

/-- A persisted record of the `pdf_viewer_annotations` blob (`interface
Annotation`, with `rect` optional to cover older persisted shapes and
`status` kept as a raw string as in the persisted JSON). -/
structure AnnotRecord where
  id : String
  pageNumber : Nat
  rect : Option Rect
  status : String
  note : Option String
  content : String
  createdAt : Nat
deriving DecidableEq

/-- The save effect (lines 99–103): the collection is written wholesale
whenever it is non-empty; an empty collection leaves the stored blob
untouched.  `stored = none` models an absent key. -/
def saveAnnots (anns : List AnnotRecord) (stored : Option (List AnnotRecord)) :
    Option (List AnnotRecord) :=
  if anns.length > 0 then some anns else stored

/-- The load effect (lines 85–91): parse the stored blob if present and
discard any record lacking `rect`. -/
def loadAnnots (stored : Option (List AnnotRecord)) : List AnnotRecord :=
  match stored with
  | none => []
  | some parsed => parsed.filter (fun a => a.rect.isSome)

/-- `addAnnotation` (lines 235–250): requires `selection?.rect` present and
a truthy `pageNumber`; appends a record built from the selection, with
`id = Date.now().toString()` and `createdAt = Date.now()` supplied as
arguments. -/
def addAnnot (anns : List AnnotRecord) (sel : Option ViewerSelection)
    (status : String) (note : Option String) (idStr : String) (now : Nat) :
    List AnnotRecord :=
  match sel with
  | none => anns
  | some s =>
      match s.rect with
      | none => anns
      | some r =>
          if s.pageNumber ≠ 0 then
            anns ++ [{ id := idStr, pageNumber := s.pageNumber, rect := some r,
                       status := status, note := note, content := s.content,
                       createdAt := now }]
          else anns

/-! ## PDF registry (db.ts) -/

/-- `interface PDF` from db.ts. -/
structure PDF where
  id : Nat
  name : String
  file_data : String
  status : String
  uploaded_at : String
  updated_at : String
deriving DecidableEq

/-- `interface Annotation` from db.ts (the server-side registry's own
annotation table, distinct from the viewer's persisted overlay records). -/
structure DbAnnotRecord where
  id : Nat
  pdf_id : Nat
  content : String
  status : String
  note : Option String
  page_number : Nat
  selection_type : String
  created_at : String
deriving DecidableEq

/-- `interface Database` from db.ts. -/
structure Database where
  pdfs : List PDF
  annots : List DbAnnotRecord
  nextPdfId : Nat
  nextAnnotId : Nat

/-- The record shape returned by `pdfOps.getAll`: the destructuring
`({ file_data, ...rest }) => rest` keeps every field except `file_data`. -/
structure PDFMeta where
  id : Nat
  name : String
  status : String
  uploaded_at : String
  updated_at : String
deriving DecidableEq

/-- `pdfOps.getAll` (db.ts lines 64–67). -/
def pdfGetAll (db : Database) : List PDFMeta :=
  db.pdfs.map (fun p => ⟨p.id, p.name, p.status, p.uploaded_at, p.updated_at⟩)

/-! ## Witness data -/

/-- `m.role` as a Boolean assistant test. -/
def isAssistant (m : Message) : Bool :=
  match m.role with
  | .assistant => true
  | .user => false

/-- A committed 12-message history used to witness the windowing claim. -/
def hist12 : List Message :=
  List.replicate 12 ⟨.user, "m", none, false⟩

/-- A persisted annotation record carrying a `rect`. -/
def annotA : AnnotRecord :=
  { id := "1", pageNumber := 1, rect := some { x := 1, y := 2, width := 30, height := 40 },
    status := "complete", note := none, content := "c", createdAt := 5 }

/-- A persisted annotation record from an older shape, lacking `rect`. -/
def annotB : AnnotRecord :=
  { id := "2", pageNumber := 1, rect := none,
    status := "pending", note := none, content := "d", createdAt := 6 }

/-! ## Helper lemmas about updateLast / applyChunks -/

theorem updateLast_concat (f : Message → Message) (l : List Message) (m : Message) :
    updateLast f (l ++ [m]) = l ++ [f m] := by
  simp [updateLast]

theorem applyChunks_concat (cs : List String) :
    ∀ (l : List Message) (m : Message) (acc : String), m.content = acc →
      applyChunks (l ++ [m]) acc cs
        = l ++ [{ m with content := List.foldl (· ++ ·) acc cs }] := by
  induction cs with
  | nil =>
      intro l m acc h
      subst h
      rfl
  | cons c cs ih =>
      intro l m acc h
      show applyChunks (updateLast _ (l ++ [m])) (acc ++ c) cs = _
      rw [updateLast_concat]
      rw [ih l { m with content := acc ++ c } (acc ++ c) rfl]
      rfl

theorem sendFinalState_completed_eq (l : List Message) (text : String)
    (img : Option String) (chunks : List String)
    (h : ¬(text = "" ∧ img = none)) :
    sendFinalState l text img chunks .completed
      = l ++ [mkUserMessage text img,
              ⟨.assistant, String.join chunks, none, false⟩] := by
  unfold sendFinalState
  rw [if_neg h]
  show finalize (applyChunks (l ++ [mkUserMessage text img, placeholderMessage]) "" chunks) = _
  have hsplit : l ++ [mkUserMessage text img, placeholderMessage]
      = (l ++ [mkUserMessage text img]) ++ [placeholderMessage] := by simp
  rw [hsplit, applyChunks_concat chunks (l ++ [mkUserMessage text img]) placeholderMessage "" rfl]
  unfold finalize
  rw [updateLast_concat]
  simp [placeholderMessage, String.join]

/-- C1: sending a prompt whose stream delivers chunks `c1..cn` appends one
User message and exactly one Assistant message whose final content is the
concatenation of the chunks in arrival order, with `isStreaming = false`
after completion. -/
theorem send_streams_single_assistant_message (l : List Message) (text : String)
    (img : Option String) (cs : List String) (h : text ≠ "") :
    handleSendMessages l text img (.ok cs)
        = l ++ [mkUserMessage text img,
                ⟨.assistant, String.join cs, none, false⟩]
      ∧ ((handleSendMessages l text img (.ok cs)).filter isAssistant).length
          = (l.filter isAssistant).length + 1 := by
  have heq : handleSendMessages l text img (.ok cs)
      = l ++ [mkUserMessage text img, ⟨.assistant, String.join cs, none, false⟩] :=
    sendFinalState_completed_eq l text img cs (fun hc => h hc.1)
  refine ⟨heq, ?_⟩
  rw [heq, List.filter_append]
  simp [isAssistant, mkUserMessage]

/-- Witness for C1 at the spec's example: the mocked 3-chunk stream
`["Hel","lo ","world"]` yields final content `"Hello world"`. -/
theorem send_streams_single_assistant_message_witness :
    ("hi" ≠ "")
      ∧ (handleSendMessages [] "hi" none (.ok ["Hel", "lo ", "world"])
            = [] ++ [mkUserMessage "hi" none,
                     ⟨.assistant, String.join ["Hel", "lo ", "world"], none, false⟩]
          ∧ ((handleSendMessages [] "hi" none (.ok ["Hel", "lo ", "world"])).filter isAssistant).length
              = (([] : List Message).filter isAssistant).length + 1)
      ∧ String.join ["Hel", "lo ", "world"] = "Hello world" :=
  ⟨by decide,
   send_streams_single_assistant_message [] "hi" none ["Hel", "lo ", "world"] (by decide),
   by decide⟩

/-- C2: the transmitted request carries exactly the most recent
`min(n, 10)` committed messages (a suffix of the committed history, in
order) followed by the new user turn. -/
theorem send_request_windows_history (l : List Message) (text : String)
    (img : Option String) (cs : List String) (h : text ≠ "") :
    handleSendRequest l text img (.ok cs)
        = some (((commitFilter l).drop ((commitFilter l).length - 10)).map encodeHistoryMessage
                  ++ [encodeCurrent (promptOf text) img])
      ∧ ((commitFilter l).drop ((commitFilter l).length - 10)).length
          = min (commitFilter l).length 10
      ∧ (commitFilter l).take ((commitFilter l).length - 10)
          ++ (commitFilter l).drop ((commitFilter l).length - 10) = commitFilter l := by
  refine ⟨?_, ?_, List.take_append_drop _ _⟩
  · unfold handleSendRequest
    rw [if_neg (fun hc => h hc.1)]
    rfl
  · rw [List.length_drop]
    omega

/-- Witness for C2: with 12 completed (committed) messages, the 13th send
transmits only the most recent 10 prior messages plus the new turn — a
payload of 11 request messages. -/
theorem send_request_windows_history_witness :
    (("q" : String) ≠ "")
      ∧ (handleSendRequest hist12 "q" none (.ok [])
            = some (((commitFilter hist12).drop ((commitFilter hist12).length - 10)).map encodeHistoryMessage
                      ++ [encodeCurrent (promptOf "q") none])
          ∧ ((commitFilter hist12).drop ((commitFilter hist12).length - 10)).length
              = min (commitFilter hist12).length 10
          ∧ (commitFilter hist12).take ((commitFilter hist12).length - 10)
              ++ (commitFilter hist12).drop ((commitFilter hist12).length - 10) = commitFilter hist12)
      ∧ (handleSendRequest hist12 "q" none (.ok [])).map List.length = some 11 :=
  ⟨by decide,
   send_request_windows_history hist12 "q" none [] (by decide),
   by decide⟩

/-- C10: a send with empty prompt text and no image is a no-op — the guard
at GeminiChat.tsx line 72 returns before any message is appended, no
request reaches the endpoint, and the committed (persisted) history is
unchanged.  `handleManualSend` likewise never calls `handleSend` in this
situation. -/
theorem empty_send_is_noop (l : List Message) (outcome : StreamOutcome) :
    handleSendMessages l "" none outcome = l
      ∧ handleSendRequest l "" none outcome = none
      ∧ commitFilter (handleSendMessages l "" none outcome) = commitFilter l
      ∧ handleManualSendArgs "" none = none := by
  have h1 : handleSendMessages l "" none outcome = l := by
    unfold handleSendMessages sendFinalState
    rw [if_pos ⟨rfl, rfl⟩]
  refine ⟨h1, ?_, by rw [h1], by decide⟩
  unfold handleSendRequest
  rw [if_pos ⟨rfl, rfl⟩]

theorem join_concat (cs : List String) (x : String) :
    String.join (cs ++ [x]) = String.join cs ++ x := by
  simp [String.join, List.foldl_append]

/-- C4 counterexample: a transport failure after the partial chunk `"Hel"`
arrived does not replace the placeholder's content with a pure error
string — `streamFromGemini` catches the error and delivers
`"\nError: ..."` through `onChunk`, so the final content is the partial
output with the error text appended, and `handleSend`'s own catch branch
never runs. -/
theorem midstream_error_appended_cex :
    handleSendMessages [] "hi" none (.midStreamFailure ["Hel"] "network failure")
        = [mkUserMessage "hi" none,
           ⟨.assistant, "Hel\nError: network failure", none, false⟩]
      ∧ ("Hel\nError: network failure" : String).take 3 = "Hel"
      ∧ ("Hel\nError: network failure" : String) ≠ "\nError: network failure" := by
  refine ⟨by decide, by decide, by decide⟩

/-- C4 (amended): on a transport failure at any point, a non-empty
descriptive error string is appended to the placeholder Assistant
message's content after any partial output already received, its
`isStreaming` flag is cleared, and a subsequent send on the same session
proceeds normally. -/
theorem send_failure_appends_error_and_recovers (l : List Message)
    (text : String) (img : Option String) (cs : List String) (e : String)
    (text2 : String) (cs2 : List String) (h : text ≠ "") (h2 : text2 ≠ "") :
    handleSendMessages l text img (.midStreamFailure cs e)
        = l ++ [mkUserMessage text img,
                ⟨.assistant, String.join cs ++ ("\nError: " ++ e), none, false⟩]
      ∧ ("\nError: " ++ e) ≠ ""
      ∧ handleSendMessages (handleSendMessages l text img (.midStreamFailure cs e))
            text2 none (.ok cs2)
          = handleSendMessages l text img (.midStreamFailure cs e)
              ++ [mkUserMessage text2 none, ⟨.assistant, String.join cs2, none, false⟩] := by
  refine ⟨?_, ?_, ?_⟩
  · show sendFinalState l text img (cs ++ ["\nError: " ++ e]) .completed = _
    rw [sendFinalState_completed_eq l text img _ (fun hc => h hc.1), join_concat]
  · intro hc
    have hlen := congrArg String.length hc
    rw [String.length_append] at hlen
    have h8 : ("\nError: " : String).length = 8 := rfl
    have h0 : ("" : String).length = 0 := rfl
    omega
  · exact sendFinalState_completed_eq _ text2 none cs2 (fun hc => h2 hc.1)

/-- Witness for the amended C4 at a concrete failing run. -/
theorem send_failure_appends_error_and_recovers_witness :
    ("hi" ≠ "") ∧ ("again" ≠ "")
      ∧ (handleSendMessages [] "hi" none (.midStreamFailure ["Hel"] "net")
            = [] ++ [mkUserMessage "hi" none,
                     ⟨.assistant, String.join ["Hel"] ++ ("\nError: " ++ "net"), none, false⟩]
          ∧ ("\nError: " ++ "net") ≠ ""
          ∧ handleSendMessages (handleSendMessages [] "hi" none (.midStreamFailure ["Hel"] "net"))
                "again" none (.ok ["ok"])
              = handleSendMessages [] "hi" none (.midStreamFailure ["Hel"] "net")
                  ++ [mkUserMessage "again" none, ⟨.assistant, String.join ["ok"], none, false⟩]) :=
  ⟨by decide, by decide,
   send_failure_appends_error_and_recovers [] "hi" none ["Hel"] "net" "again" ["ok"]
     (by decide) (by decide)⟩

/-! ## The streaming invariant (C3) -/

theorem chunkStates_shape (cs : List String) :
    ∀ (l : List Message) (m : Message) (acc : String) (s : List Message),
      s ∈ chunkStates (l ++ [m]) acc cs →
        ∃ str, s = l ++ [{ m with content := str }] := by
  induction cs with
  | nil => intro l m acc s h; simp [chunkStates] at h
  | cons c cs ih =>
      intro l m acc s h
      simp only [chunkStates, updateLast_concat] at h
      rcases List.mem_cons.mp h with h1 | h2
      · exact ⟨acc ++ c, h1⟩
      · obtain ⟨str, hstr⟩ := ih l { m with content := acc ++ c } (acc ++ c) s h2
        exact ⟨str, hstr⟩

theorem sendFinalState_quiescent (l : List Message) (text : String)
    (img : Option String) (chunks : List String) (res : SendResult)
    (hq : ∀ m ∈ l, m.isStreaming = false) :
    ∀ m ∈ sendFinalState l text img chunks res, m.isStreaming = false := by
  by_cases hg : text = "" ∧ img = none
  · unfold sendFinalState; rw [if_pos hg]; exact hq
  · have hsplit : l ++ [mkUserMessage text img, placeholderMessage]
        = (l ++ [mkUserMessage text img]) ++ [placeholderMessage] := by simp
    cases res with
    | completed =>
        unfold sendFinalState
        rw [if_neg hg]
        show ∀ m ∈ finalize (applyChunks (l ++ [mkUserMessage text img, placeholderMessage]) "" chunks),
          m.isStreaming = false
        rw [hsplit, applyChunks_concat chunks _ placeholderMessage "" rfl]
        unfold finalize
        rw [updateLast_concat]
        intro m hm
        simp only [List.append_assoc, List.mem_append, List.mem_cons,
          List.not_mem_nil, or_false] at hm
        rcases hm with hm | rfl | rfl
        · exact hq m hm
        · rfl
        · rfl
    | threw emsg =>
        unfold sendFinalState
        rw [if_neg hg]
        show ∀ m ∈ errorReplace ("Error: " ++ emsg)
            (applyChunks (l ++ [mkUserMessage text img, placeholderMessage]) "" chunks),
          m.isStreaming = false
        rw [hsplit, applyChunks_concat chunks _ placeholderMessage "" rfl]
        unfold errorReplace
        rw [updateLast_concat]
        intro m hm
        simp only [List.append_assoc, List.mem_append, List.mem_cons,
          List.not_mem_nil, or_false] at hm
        rcases hm with hm | rfl | rfl
        · exact hq m hm
        · rfl
        · rfl

theorem boundary_quiescent : ∀ {s : List Message}, Boundary s →
    ∀ m ∈ s, m.isStreaming = false := by
  intro s hb
  induction hb with
  | init => intro m hm; simp at hm
  | loadSaved l prior hb ih =>
      intro m hm
      simp only [commitFilter] at hm
      have := (List.mem_filter.mp hm).2
      simpa using this
  | clearAll l hb ih => intro m hm; simp at hm
  | sendDone l text img chunks res hb ih =>
      exact sendFinalState_quiescent l text img chunks res ih

theorem mid_send_inv (l : List Message) (text : String) (img : Option String)
    (chunks : List String) (res : SendResult) (s : List Message)
    (hq : ∀ m ∈ l, m.isStreaming = false)
    (hs : s ∈ sendStates l text img chunks res) :
    ∀ m ∈ s.dropLast, m.isStreaming = false := by
  by_cases hg : text = "" ∧ img = none
  · unfold sendStates at hs
    rw [if_pos hg] at hs
    simp at hs
    subst hs
    intro m hm
    exact hq m ((List.dropLast_sublist _).subset hm)
  · unfold sendStates at hs
    rw [if_neg hg] at hs
    have huser : ∀ m ∈ l ++ [mkUserMessage text img], m.isStreaming = false := by
      intro m hm
      rcases List.mem_append.mp hm with hm | hm
      · exact hq m hm
      · rw [List.mem_singleton] at hm; subst hm; rfl
    have hsplit : l ++ [mkUserMessage text img, placeholderMessage]
        = (l ++ [mkUserMessage text img]) ++ [placeholderMessage] := by simp
    rcases List.mem_cons.mp hs with rfl | hs
    · rw [List.dropLast_concat]
      exact hq
    rcases List.mem_cons.mp hs with rfl | hs
    · rw [hsplit, List.dropLast_concat]
      exact huser
    rcases List.mem_append.mp hs with hs | hs
    · rw [hsplit] at hs
      obtain ⟨str, rfl⟩ := chunkStates_shape chunks _ _ _ _ hs
      rw [List.dropLast_concat]
      exact huser
    · rw [List.mem_singleton] at hs; subst hs
      intro m hm
      exact sendFinalState_quiescent l text img chunks res hq m
        ((List.dropLast_sublist _).subset hm)

theorem streaming_filter_le_one (s : List Message)
    (h : ∀ m ∈ s.dropLast, m.isStreaming = false) :
    (s.filter (fun m => m.isStreaming)).length ≤ 1 := by
  rcases List.eq_nil_or_concat s with rfl | ⟨l, m, rfl⟩
  · simp
  · rw [List.concat_eq_append] at h ⊢
    rw [List.filter_append]
    rw [List.dropLast_concat] at h
    have hnil : l.filter (fun m => m.isStreaming) = [] := by
      rw [List.filter_eq_nil_iff]
      intro a ha
      simp [h a ha]
    rw [hnil]
    simp only [List.nil_append, List.filter]
    split <;> simp

/-- C3: in every message-list state reachable by any sequence of load,
send (including its per-chunk updates) and clear operations, at most one
message has `isStreaming = true`, and any streaming message is the last
element (every message before the last is committed). -/
theorem reachable_at_most_one_streaming (s : List Message) (h : ReachableMsgs s) :
    (s.filter (fun m => m.isStreaming)).length ≤ 1
      ∧ ∀ m ∈ s.dropLast, m.isStreaming = false := by
  have hdl : ∀ m ∈ s.dropLast, m.isStreaming = false := by
    rcases h with hb | ⟨l, text, img, chunks, res, hb, hs⟩
    · intro m hm
      exact boundary_quiescent hb m ((List.dropLast_sublist _).subset hm)
    · exact mid_send_inv l text img chunks res s (boundary_quiescent hb) hs
  exact ⟨streaming_filter_le_one s hdl, hdl⟩

/-- Witness for C3 at a concrete mid-stream state: the state right after
the placeholder append during a send from the empty session. -/
theorem reachable_at_most_one_streaming_witness :
    (([mkUserMessage "hi" none, placeholderMessage].filter (fun m => m.isStreaming)).length ≤ 1)
      ∧ ∀ m ∈ [mkUserMessage "hi" none, placeholderMessage].dropLast, m.isStreaming = false :=
  reachable_at_most_one_streaming [mkUserMessage "hi" none, placeholderMessage]
    (Or.inr ⟨[], "hi", none, [], SendResult.completed, Boundary.init, by decide⟩)

/-! ## Region capture, classifier, annotations, registry (C5–C9) -/

/-- C5: a region Selection is emitted if and only if the normalized drag
rectangle satisfies `width > 10` and `height > 10`; any rectangle with
`width <= 10` or `height <= 10` emits nothing. -/
theorem region_capture_iff_above_threshold (r : SelectionRect) (sx sy : ℚ) :
    (handleMouseUpCapture r sx sy).isSome
      ↔ (10 < |r.endX - r.startX| ∧ 10 < |r.endY - r.startY|) := by
  unfold handleMouseUpCapture
  split <;> simp_all

/-- C6 counterexample: capturing the 20×20 drag rectangle from a canvas
with `scaleX = scaleY = 2` produces a `tempCanvas` of 20×20 pixels
(`tempCanvas.width = width`), not the claimed
`round(width*scaleX) × round(height*scaleY) = 40×40`. -/
theorem capture_dims_ignore_scale_cex :
    (handleMouseUpCapture ⟨0, 0, 20, 20, 1⟩ 2 2).map (fun c => (c.outW, c.outH))
        = some (20, 20)
      ∧ (round ((20 : ℚ) * 2), round ((20 : ℚ) * 2)) = ((40 : ℤ), (40 : ℤ))
      ∧ ((20 : ℤ), (20 : ℤ)) ≠ ((40 : ℤ), (40 : ℤ)) := by
  refine ⟨?_, ?_, by decide⟩
  · unfold handleMouseUpCapture
    rw [if_pos (by norm_num)]
    simp only [Option.map_some]
    norm_num
  · have h1 : ((20 : ℚ) * 2) = ((40 : ℤ) : ℚ) := by norm_num
    rw [h1, round_intCast]

/-- C6 (amended): for every capture, the extracted image's pixel dimensions
equal the truncated logical `width × height` of the normalized rectangle —
independent of `scaleX`/`scaleY`, which only address the source pixel
block `(x*scaleX, y*scaleY, width*scaleX, height*scaleY)`. -/
theorem capture_dims_eq_floor_rect_dims (r : SelectionRect) (sx sy : ℚ) :
    (handleMouseUpCapture r sx sy).map (fun c => (c.outW, c.outH, c.srcW, c.srcH))
      = (handleMouseUpCapture r sx sy).map
          (fun c => (⌊c.width⌋, ⌊c.height⌋, c.width * sx, c.height * sy)) := by
  unfold handleMouseUpCapture
  split <;> rfl

/-- C7: the text classifier is a pure function of the selected text with
`"∫f(x)dx"` → Equation, `"The cat sat"` → Text, `"x = 5"` → Equation, and
no Selection at all for the empty or whitespace-only string. -/
theorem classifier_examples :
    classify "∫f(x)dx" = SelKind.equation
      ∧ classify "The cat sat" = SelKind.text
      ∧ classify "x = 5" = SelKind.equation
      ∧ handleTextSelection "" = none
      ∧ handleTextSelection " \t " = none := by
  refine ⟨by decide, by decide, by decide, by decide, by decide⟩

/-- C8: persisting a non-empty annotation collection and restoring it
yields exactly the subsequence of records that carry a `rect` (order and
fields preserved; in particular the whole collection when every record has
one, which is always the case for records `addAnnotation` creates), and
every persisted record lacking a `rect` is discarded on restore. -/
theorem annot_roundtrip_filters_rectless (anns : List AnnotRecord)
    (stored : Option (List AnnotRecord)) (hne : anns ≠ []) :
    loadAnnots (saveAnnots anns stored) = anns.filter (fun a => a.rect.isSome)
      ∧ ((∀ a ∈ anns, a.rect.isSome) → loadAnnots (saveAnnots anns stored) = anns)
      ∧ ∀ (s : ViewerSelection) (st : String) (nt : Option String)
          (idStr : String) (now : Nat),
          addAnnot anns (some s) st nt idStr now = anns
            ∨ ∃ r, addAnnot anns (some s) st nt idStr now
                = anns ++ [{ id := idStr, pageNumber := s.pageNumber, rect := some r,
                             status := st, note := nt, content := s.content,
                             createdAt := now }] := by
  have hsave : saveAnnots anns stored = some anns := by
    unfold saveAnnots
    rw [if_pos (List.length_pos.mpr hne)]
  have h1 : loadAnnots (saveAnnots anns stored) = anns.filter (fun a => a.rect.isSome) := by
    rw [hsave]; rfl
  refine ⟨h1, ?_, ?_⟩
  · intro hall
    rw [h1]
    exact List.filter_eq_self.mpr hall
  · intro s st nt idStr now
    rcases hr : s.rect with _ | r
    · left
      simp [addAnnot, hr]
    · by_cases hp : s.pageNumber ≠ 0
      · right
        exact ⟨r, by simp [addAnnot, hr, hp]⟩
      · left
        simp [addAnnot, hr, hp]

/-- Witness for C8: a collection holding one record with a `rect` and one
legacy record without restores to just the first record. -/
theorem annot_roundtrip_filters_rectless_witness :
    ([annotA, annotB] ≠ ([] : List AnnotRecord))
      ∧ (loadAnnots (saveAnnots [annotA, annotB] none)
            = [annotA, annotB].filter (fun a => a.rect.isSome)
          ∧ ((∀ a ∈ [annotA, annotB], a.rect.isSome) →
                loadAnnots (saveAnnots [annotA, annotB] none) = [annotA, annotB])
          ∧ ∀ (s : ViewerSelection) (st : String) (nt : Option String)
              (idStr : String) (now : Nat),
              addAnnot [annotA, annotB] (some s) st nt idStr now = [annotA, annotB]
                ∨ ∃ r, addAnnot [annotA, annotB] (some s) st nt idStr now
                    = [annotA, annotB]
                        ++ [{ id := idStr, pageNumber := s.pageNumber, rect := some r,
                              status := st, note := nt, content := s.content,
                              createdAt := now }])
      ∧ loadAnnots (saveAnnots [annotA, annotB] none) = [annotA] :=
  ⟨by decide,
   annot_roundtrip_filters_rectless [annotA, annotB] none (by decide),
   by decide⟩

/-- C9: `pdfOps.getAll` returns one record per stored PDF, in storage
order, preserving `id`, `name`, `status` and both timestamps, and the
result never depends on (hence never contains) the raw `file_data`
bytes — the returned shape has no such field. -/
theorem pdf_getAll_projects_metadata (db : Database) :
    (pdfGetAll db).length = db.pdfs.length
      ∧ (∀ i : Nat,
          ((pdfGetAll db)[i]?).map PDFMeta.id = (db.pdfs[i]?).map PDF.id
            ∧ ((pdfGetAll db)[i]?).map PDFMeta.name = (db.pdfs[i]?).map PDF.name
            ∧ ((pdfGetAll db)[i]?).map PDFMeta.status = (db.pdfs[i]?).map PDF.status
            ∧ ((pdfGetAll db)[i]?).map PDFMeta.uploaded_at = (db.pdfs[i]?).map PDF.uploaded_at
            ∧ ((pdfGetAll db)[i]?).map PDFMeta.updated_at = (db.pdfs[i]?).map PDF.updated_at)
      ∧ ∀ f : PDF → String,
          pdfGetAll { db with pdfs := db.pdfs.map (fun p => { p with file_data := f p }) }
            = pdfGetAll db := by
  refine ⟨by simp [pdfGetAll], ?_, ?_⟩
  · intro i
    have hbase : (pdfGetAll db)[i]?
        = (db.pdfs[i]?).map
            (fun p => (⟨p.id, p.name, p.status, p.uploaded_at, p.updated_at⟩ : PDFMeta)) := by
      simp [pdfGetAll]
    refine ⟨?_, ?_, ?_, ?_, ?_⟩ <;> (rw [hbase]; cases db.pdfs[i]? <;> rfl)
  · intro f
    obtain ⟨pdfs, annots, n1, n2⟩ := db
    show (pdfs.map (fun p => ({ p with file_data := f p } : PDF))).map
          (fun p => (⟨p.id, p.name, p.status, p.uploaded_at, p.updated_at⟩ : PDFMeta))
        = pdfs.map
            (fun p => (⟨p.id, p.name, p.status, p.uploaded_at, p.updated_at⟩ : PDFMeta))
    rw [List.map_map]
    rfl
